import Mathlib

/-!
Verification of the Tagesschau API client (`src/lib.rs`, `src/blocking.rs`).

This file gives a shallow embedding of the library's data model and
operations, and proves the frozen specification claims about them.

Conventions of the embedding:
* Rust `u8`/`u16` values are modelled as `Nat`, `i32` as `Int`; overflow never
  occurs in the modelled code paths (all arithmetic stays far inside the
  machine ranges), so no wrap-around is applied.
* The external `time` crate is modelled behaviourally: `time::Date` carries a
  (year, month, day) triple, is ordered by (year, ordinal-in-year) exactly as
  the crate orders its (year, ordinal) representation, supports years in
  `-9999..=9999`, and `next_day` returns `none` exactly at the maximum
  supported date 9999-12-31.  `TDate` in `lib.rs` holds the same fields
  (`day`, `month`, `year`) and converts to/from `time::Date` by identity on
  those fields, so a single structure models both.
* Rust panics (`unwrap` on `None`) are modelled by the `Panics` result type.
* `HashSet` iteration order is not specified; functions that iterate a
  `HashSet` take the iteration sequence as an explicit list parameter, and
  set-valued fields are modelled as `Finset`.
-/

namespace Tagesschau

/-- The twelve months, mirroring the `Month` enum of `lib.rs` (repr u8, 1-based). -/
inductive Month where
  | january
  | february
  | march
  | april
  | may
  | june
  | july
  | august
  | september
  | october
  | november
  | december
deriving DecidableEq, Repr

/-- The `repr(u8)` discriminant of a `Month` (January = 1 .. December = 12). -/
def Month.toNat : Month → Nat
  | .january => 1
  | .february => 2
  | .march => 3
  | .april => 4
  | .may => 5
  | .june => 6
  | .july => 7
  | .august => 8
  | .september => 9
  | .october => 10
  | .november => 11
  | .december => 12

/-- Calendar successor of a month (December wraps to January). -/
def Month.next : Month → Month
  | .january => .february
  | .february => .march
  | .march => .april
  | .april => .may
  | .may => .june
  | .june => .july
  | .july => .august
  | .august => .september
  | .september => .october
  | .october => .november
  | .november => .december
  | .december => .january

/-- The `TDate` struct of `lib.rs`: `day: u8`, `month: Month`, `year: i32`. -/
structure TDate where
  day : Nat
  month : Month
  year : Int
deriving DecidableEq, Repr

/-- Gregorian leap-year test, as implemented by the `time` crate
(`year % 4 == 0 && (year % 100 != 0 || year % 400 == 0)`; divisibility does
not depend on the rounding mode of `%`). -/
def isLeap (y : Int) : Bool := y % 4 == 0 && (y % 100 != 0 || y % 400 == 0)

/-- Number of days of a month in a given year (`time::util::days_in_year_month`). -/
def daysInMonth (y : Int) (m : Month) : Nat :=
  match m with
  | .february => if isLeap y then 29 else 28
  | .april => 30
  | .june => 30
  | .september => 30
  | .november => 30
  | _ => 31

/-- The extra calendar day of a leap year (1 in leap years, else 0). -/
def leapDay (y : Int) : Nat := if isLeap y then 1 else 0

/-- Days of the year strictly before the given month (so that
`daysBeforeMonth y m + day` is the 1-based ordinal of the date in its year,
the quantity `time::Date` stores and compares). -/
def daysBeforeMonth (y : Int) (m : Month) : Nat :=
  match m with
  | .january => 0
  | .february => 31
  | .march => 59 + leapDay y
  | .april => 90 + leapDay y
  | .may => 120 + leapDay y
  | .june => 151 + leapDay y
  | .july => 181 + leapDay y
  | .august => 212 + leapDay y
  | .september => 243 + leapDay y
  | .october => 273 + leapDay y
  | .november => 304 + leapDay y
  | .december => 334 + leapDay y

/-- The 1-based ordinal of a date within its year. -/
def ordinalOf (d : TDate) : Nat := daysBeforeMonth d.year d.month + d.day

/-- The order `time::Date` derives on its (year, ordinal) representation:
lexicographic on year, then ordinal.  This is the `s <= e` of the
`DateRange::new` loop. -/
def dle (a b : TDate) : Prop :=
  a.year < b.year ∨ (a.year = b.year ∧ ordinalOf a ≤ ordinalOf b)

/-- Strict version of `dle`. -/
def dlt (a b : TDate) : Prop :=
  a.year < b.year ∨ (a.year = b.year ∧ ordinalOf a < ordinalOf b)

instance (a b : TDate) : Decidable (dle a b) := by unfold dle; exact inferInstance

instance (a b : TDate) : Decidable (dlt a b) := by unfold dlt; exact inferInstance

/-- The error enum of `lib.rs` (payloads of the transport/serde wrapper
variants are reduced to strings; they are never inspected by the library). -/
inductive Error where
  | badRequest (msg : String)
  | parsingError (msg : String)
  | invalidResponse (status : Nat)
  | deserializationError (msg : String)
  | conversionError
  | dateError
  | dateParsingError (component : String)
  | urlParsing
deriving DecidableEq, Repr

/-- A date triple that `time::Date::from_calendar_date` accepts: year within
the crate's supported range `-9999..=9999` and a day that exists in the
(year, month) calendar month. -/
def ValidDate (d : TDate) : Prop :=
  -9999 ≤ d.year ∧ d.year ≤ 9999 ∧ 1 ≤ d.day ∧ d.day ≤ daysInMonth d.year d.month

instance (d : TDate) : Decidable (ValidDate d) := by unfold ValidDate; exact inferInstance

/-- `TDate::from_calendar_date`: delegates validation to
`time::Date::from_calendar_date` (year-range check, then day-range check
against the calendar month) and converts the result back field-by-field. -/
def TDate.from_calendar_date (year : Int) (month : Month) (day : Nat) : Except Error TDate :=
  if -9999 ≤ year ∧ year ≤ 9999 then
    if 1 ≤ day ∧ day ≤ daysInMonth year month then
      .ok ⟨day, month, year⟩
    else
      .error (.dateParsingError "day")
  else
    .error (.dateParsingError "year")

/-- The maximum date supported by the `time` crate (`Date::MAX`). -/
def maxDate : TDate := ⟨31, .december, 9999⟩

/-- `time::Date::next_day`, behaviourally: increment within the month,
roll over month/year boundaries, and return `none` exactly at `Date::MAX`. -/
def nextDay (d : TDate) : Option TDate :=
  if d.day < daysInMonth d.year d.month then
    some ⟨d.day + 1, d.month, d.year⟩
  else if d.month = .december then
    if d.year = 9999 then none else some ⟨1, .january, d.year + 1⟩
  else
    some ⟨1, d.month.next, d.year⟩

/-- Result of a Rust computation that may panic (here: `unwrap` on `None`). -/
inductive Panics (α : Type) where
  | panicked
  | returns (val : α)
deriving DecidableEq, Repr

/-- Map a function over a non-panicking result. -/
def Panics.map (f : α → β) : Panics α → Panics β
  | .panicked => .panicked
  | .returns a => .returns (f a)

/-- `Month.toNat` is between 1 and 12. -/
theorem Month.toNat_bounds (m : Month) : 1 ≤ m.toNat ∧ m.toNat ≤ 12 := by
  cases m <;> simp [Month.toNat]

/-- For a non-December month, `next` advances the discriminant by one. -/
theorem Month.toNat_next (m : Month) (h : m ≠ .december) :
    m.next.toNat = m.toNat + 1 := by
  cases m <;> simp_all [Month.next, Month.toNat]

/-- The while loop of `DateRange::new`: starting at `s`, push the current date
and advance by `next_day().unwrap()` while `s <= e`.  The `unwrap` panics when
`next_day` returns `none`. -/
def walkDates (e s : TDate) : Panics (List TDate) :=
  if h : dle s e then
    match h2 : nextDay s with
    | none => .panicked
    | some s2 => (walkDates e s2).map (s :: ·)
  else
    .returns []
termination_by ((e.year + 1 - s.year).toNat * 600 + (13 - s.month.toNat) * 40 + (32 - s.day) : Nat)
decreasing_by
  have hy : s.year ≤ e.year := by
    rcases h with h | ⟨h, -⟩ <;> omega
  have hb := Month.toNat_bounds s.month
  have hb2 := Month.toNat_bounds s2.month
  unfold nextDay at h2
  split at h2
  · rename_i hday
    have hdim : daysInMonth s.year s.month ≤ 31 := by
      unfold daysInMonth
      split <;> first | omega | (split <;> omega)
    cases h2
    simp only
    omega
  · split at h2
    · split at h2
      · cases h2
      · cases h2
        simp only [Month.toNat]
        omega
    · cases h2
      rename_i hdec
      have := Month.toNat_next s.month hdec
      simp only
      omega

/-- Days of the proleptic Gregorian calendar strictly before January 1 of
year `y`, counted from January 1 of year 1 (floor division; the standard
365·(y−1) + leap-day count). -/
def dBY (y : Int) : Int := 365 * (y - 1) + (y - 1) / 4 - (y - 1) / 100 + (y - 1) / 400

/-- Absolute day number of a date: days before its year plus its ordinal.
Two valid dates are one calendar day apart exactly when their `toDays`
differ by one. -/
def toDays (d : TDate) : Int := dBY d.year + ordinalOf d

/-- One-year step of the pre-year day count. -/
theorem dBY_step (y : Int) : dBY (y + 1) = dBY y + 365 + (if isLeap y then 1 else 0) := by
  simp only [dBY, isLeap, Bool.and_eq_true, beq_iff_eq, Bool.or_eq_true, bne_iff_ne]
  split
  · omega
  · rename_i hn
    push_neg at hn
    omega

/-- `dBY` is monotone. -/
theorem dBY_mono {y y2 : Int} (h : y ≤ y2) : dBY y ≤ dBY y2 := by
  refine @Int.le_induction (fun n => dBY y ≤ dBY n) y ?_ ?_ y2 h
  · exact le_refl _
  · intro n _ ih
    have := dBY_step n
    split at this <;> omega

/-- Every month has at least 28 days. -/
theorem daysInMonth_ge (y : Int) (m : Month) : 28 ≤ daysInMonth y m := by
  unfold daysInMonth
  split <;> first | omega | (split <;> omega)

/-- Every month has at most 31 days. -/
theorem daysInMonth_le (y : Int) (m : Month) : daysInMonth y m ≤ 31 := by
  unfold daysInMonth
  split <;> first | omega | (split <;> omega)

/-- Ordinal bounds of a valid date: between 1 and the length of its year. -/
theorem ordinalOf_bounds {d : TDate} (h : ValidDate d) :
    1 ≤ ordinalOf d ∧ ordinalOf d ≤ 365 + (if isLeap d.year then 1 else 0) := by
  obtain ⟨day, m, y⟩ := d
  obtain ⟨-, -, h1, h2⟩ := h
  simp only [ordinalOf] at *
  cases m <;>
    by_cases hL : isLeap y <;>
    simp_all [daysBeforeMonth, daysInMonth, leapDay] <;>
    omega

/-- Cumulative month lengths: days before the successor month. -/
theorem daysBeforeMonth_next (y : Int) (m : Month) (h : m ≠ .december) :
    daysBeforeMonth y m.next = daysBeforeMonth y m + daysInMonth y m := by
  cases m <;>
    by_cases hL : isLeap y <;>
    simp_all [daysBeforeMonth, daysInMonth, Month.next, leapDay]

/-- Strict monotonicity of the day number with respect to the date order. -/
theorem toDays_lt_of_dlt {a b : TDate} (ha : ValidDate a) (hb : ValidDate b)
    (h : dlt a b) : toDays a < toDays b := by
  rcases h with h | ⟨hy, ho⟩
  · have hub := (ordinalOf_bounds ha).2
    have hlb := (ordinalOf_bounds hb).1
    have hstep := dBY_step a.year
    have hmono : dBY (a.year + 1) ≤ dBY b.year := dBY_mono (by omega)
    simp only [toDays]
    by_cases hL : isLeap a.year <;> simp [hL] at hub hstep <;> omega
  · simp only [toDays, hy]
    omega

/-- Monotonicity of the day number with respect to the date order. -/
theorem toDays_le_of_dle {a b : TDate} (ha : ValidDate a) (hb : ValidDate b)
    (h : dle a b) : toDays a ≤ toDays b := by
  rcases h with h | ⟨hy, ho⟩
  · exact le_of_lt (toDays_lt_of_dlt ha hb (Or.inl h))
  · simp only [toDays, hy]
    omega

/-- The date order is total (on the (year, ordinal) components). -/
theorem dlt_of_not_dle {a b : TDate} (h : ¬ dle a b) : dlt b a := by
  unfold dle at h
  unfold dlt
  omega

/-- Day-number comparison reflects the date order on valid dates. -/
theorem dle_of_toDays_le {a b : TDate} (ha : ValidDate a) (hb : ValidDate b)
    (h : toDays a ≤ toDays b) : dle a b := by
  by_contra hc
  exact absurd h (by simpa using toDays_lt_of_dlt hb ha (dlt_of_not_dle hc))

/-- `next_day` of a valid date: the successor is valid and its day number is
one greater (`none` is handled separately). -/
theorem nextDay_spec {s s2 : TDate} (hs : ValidDate s) (h : nextDay s = some s2) :
    ValidDate s2 ∧ toDays s2 = toDays s + 1 := by
  obtain ⟨day, m, y⟩ := s
  obtain ⟨hy1, hy2, hd1, hd2⟩ := hs
  simp only at hy1 hy2 hd1 hd2
  unfold nextDay at h
  simp only at h
  split at h
  · rename_i hday
    cases h
    refine ⟨⟨hy1, hy2, by simp only; omega, by simp only; omega⟩, ?_⟩
    simp only [toDays, ordinalOf]
    omega
  · rename_i hday
    split at h
    · rename_i hdec
      subst hdec
      split at h
      · cases h
      · rename_i hmax
        cases h
        have h31 : day = 31 := by
          simp only [daysInMonth] at hd2 hday
          omega
        subst h31
        have hstep := dBY_step y
        refine ⟨⟨by simp only; omega, by simp only; omega, by simp only; omega, ?_⟩, ?_⟩
        · simp [daysInMonth]
        · simp only [toDays, ordinalOf, daysBeforeMonth, leapDay]
          by_cases hL : isLeap y <;> simp [hL] at hstep ⊢ <;> omega
    · rename_i hdec
      cases h
      have hdim : day = daysInMonth y m := by omega
      have hnext := daysBeforeMonth_next y m hdec
      have hge := daysInMonth_ge y m.next
      refine ⟨⟨hy1, hy2, by simp only; omega, by simp only; omega⟩, ?_⟩
      simp only [toDays, ordinalOf]
      omega

/-- On valid dates, `next_day` returns `none` exactly at `Date::MAX`. -/
theorem nextDay_eq_none {s : TDate} (hs : ValidDate s) :
    nextDay s = none ↔ s = maxDate := by
  constructor
  · intro h
    obtain ⟨day, m, y⟩ := s
    obtain ⟨-, -, hd1, hd2⟩ := hs
    simp only at hd1 hd2
    unfold nextDay at h
    simp only at h
    split at h
    · cases h
    · rename_i hday
      split at h
      · rename_i hdec
        subst hdec
        split at h
        · rename_i hmax
          subst hmax
          simp only [daysInMonth] at hday hd2
          simp [maxDate, TDate.mk.injEq]
          omega
        · cases h
      · cases h
  · intro h
    subst h
    decide

/-- A valid date that is at least `Date::MAX` in the date order is `Date::MAX`. -/
theorem eq_maxDate_of_dle {e : TDate} (he : ValidDate e) (h : dle maxDate e) :
    e = maxDate := by
  obtain ⟨day, m, y⟩ := e
  obtain ⟨-, hy2, hd1, hd2⟩ := he
  simp only at hy2 hd1 hd2
  rcases h with h | ⟨hy, ho⟩
  · simp only [maxDate] at h
    omega
  · simp only [maxDate] at hy
    subst hy
    simp only [maxDate, ordinalOf, TDate.mk.injEq] at ho ⊢
    have hL : isLeap 9999 = false := by decide
    cases m <;> simp_all [daysBeforeMonth, daysInMonth, leapDay] <;> omega

/-- Totality complement of the strict order. -/
theorem dle_of_not_dlt {a b : TDate} (h : ¬ dlt a b) : dle b a := by
  unfold dlt at h
  unfold dle
  omega

/-- Strict day-number comparison reflects the strict date order on valid dates. -/
theorem dlt_of_toDays_lt {a b : TDate} (ha : ValidDate a) (hb : ValidDate b)
    (h : toDays a < toDays b) : dlt a b := by
  by_contra hc
  have := toDays_le_of_dle hb ha (dle_of_not_dlt hc)
  omega

/-- The date order is reflexive. -/
theorem dle_rfl (a : TDate) : dle a a := Or.inr ⟨rfl, le_refl _⟩

/-- The strict date order is irreflexive. -/
theorem dlt_irrefl (a : TDate) : ¬ dlt a a := by
  unfold dlt
  omega

/-- Within one year, the ordinal determines month and day of a valid date. -/
theorem ordinal_inj {y : Int} {m m2 : Month} {d d2 : Nat}
    (h1 : 1 ≤ d) (h2 : d ≤ daysInMonth y m) (h3 : 1 ≤ d2) (h4 : d2 ≤ daysInMonth y m2)
    (he : daysBeforeMonth y m + d = daysBeforeMonth y m2 + d2) : m = m2 ∧ d = d2 := by
  have hfeb : daysInMonth y .february = 28 + leapDay y := by
    simp only [daysInMonth, leapDay]
    split <;> omega
  have hL : leapDay y ≤ 1 := by
    simp only [leapDay]
    split <;> omega
  cases m <;> cases m2 <;>
    (try simp only [hfeb] at h2 h4) <;>
    simp only [daysBeforeMonth, daysInMonth] at h2 h4 he <;>
    first
      | exact ⟨rfl, by omega⟩
      | (exfalso; omega)

/-- The day number is injective on valid dates. -/
theorem toDays_inj {a b : TDate} (ha : ValidDate a) (hb : ValidDate b)
    (h : toDays a = toDays b) : a = b := by
  have hy : a.year = b.year := by
    by_contra hy
    rcases lt_or_gt_of_ne hy with h2 | h2
    · have := toDays_lt_of_dlt ha hb (Or.inl h2)
      omega
    · have := toDays_lt_of_dlt hb ha (Or.inl h2)
      omega
  have ho : ordinalOf a = ordinalOf b := by
    simp only [toDays, hy] at h
    omega
  obtain ⟨da, ma, ya⟩ := a
  obtain ⟨db, mb, yb⟩ := b
  simp only at hy
  subst hy
  obtain ⟨-, -, h1, h2⟩ := ha
  obtain ⟨-, -, h3, h4⟩ := hb
  simp only at h1 h2 h3 h4
  simp only [ordinalOf] at ho
  obtain ⟨hm, hd⟩ := ordinal_inj h1 h2 h3 h4 ho
  simp [hm, hd]

/-- Full specification of the `DateRange::new` while loop for ranges that stay
below `Date::MAX`: it returns a list counting exactly the days from `s` to `e`
(one day number apart each), ascending, containing precisely the valid dates
between `s` and `e`, and the empty list when `e < s`. -/
theorem walkDates_spec {e : TDate} (he : ValidDate e) (hmax : e ≠ maxDate) :
    ∀ s : TDate, ValidDate s →
      ∃ l : List TDate,
        walkDates e s = .returns l ∧
        (dle s e → (l.length : Int) = toDays e - toDays s + 1) ∧
        (¬ dle s e → l = []) ∧
        (∀ d ∈ l, ValidDate d ∧ dle s d ∧ dle d e) ∧
        (∀ d : TDate, ValidDate d → dle s d → dle d e → d ∈ l) ∧
        l.Pairwise dlt := by
  suffices H : ∀ n : Nat, ∀ s : TDate, (toDays e + 1 - toDays s).toNat = n → ValidDate s →
      ∃ l : List TDate,
        walkDates e s = .returns l ∧
        (dle s e → (l.length : Int) = toDays e - toDays s + 1) ∧
        (¬ dle s e → l = []) ∧
        (∀ d ∈ l, ValidDate d ∧ dle s d ∧ dle d e) ∧
        (∀ d : TDate, ValidDate d → dle s d → dle d e → d ∈ l) ∧
        l.Pairwise dlt by
    intro s hs
    exact H _ s rfl hs
  intro n
  induction n using Nat.strong_induction_on with
  | _ n ih =>
  intro s hn hs
  by_cases hle : dle s e
  · have hsle : toDays s ≤ toDays e := toDays_le_of_dle hs he hle
    obtain ⟨s2, hs2⟩ : ∃ s2, nextDay s = some s2 := by
      cases h0 : nextDay s with
      | none =>
        exfalso
        have h1 := (nextDay_eq_none hs).mp h0
        subst h1
        exact hmax (eq_maxDate_of_dle he hle)
      | some s2 => exact ⟨s2, rfl⟩
    obtain ⟨hs2v, hs2d⟩ := nextDay_spec hs hs2
    obtain ⟨l2, hl2, hlen2, hnil2, hmem2, hall2, hsort2⟩ :=
      ih (toDays e + 1 - toDays s2).toNat (by omega) s2 rfl hs2v
    refine ⟨s :: l2, ?_, ?_, ?_, ?_, ?_, ?_⟩
    · rw [walkDates.eq_def, dif_pos hle]
      split
      · rename_i heq
        rw [heq] at hs2
        cases hs2
      · rename_i x heq
        rw [heq] at hs2
        cases hs2
        rw [hl2]
        rfl
    · intro _
      by_cases h2le : dle s2 e
      · have := hlen2 h2le
        simp only [List.length_cons]
        push_cast
        omega
      · have hn2 := hnil2 h2le
        subst hn2
        have := toDays_lt_of_dlt he hs2v (dlt_of_not_dle h2le)
        simp only [List.length_cons, List.length_nil]
        omega
    · intro h
      exact absurd hle h
    · intro d hd
      rcases List.mem_cons.mp hd with rfl | hdl
      · exact ⟨hs, dle_rfl d, hle⟩
      · obtain ⟨hdv, hsd, hde⟩ := hmem2 d hdl
        refine ⟨hdv, ?_, hde⟩
        have := toDays_le_of_dle hs2v hdv hsd
        exact dle_of_toDays_le hs hdv (by omega)
    · intro d hdv hsd hde
      by_cases hds : toDays d ≤ toDays s
      · have h1 := toDays_le_of_dle hs hdv hsd
        have h2 : d = s := toDays_inj hdv hs (by omega)
        subst h2
        exact List.mem_cons_self d l2
      · push_neg at hds
        have hs2d2 : dle s2 d := dle_of_toDays_le hs2v hdv (by omega)
        exact List.mem_cons_of_mem s (hall2 d hdv hs2d2 hde)
    · refine List.pairwise_cons.mpr ⟨?_, hsort2⟩
      intro d hdl
      obtain ⟨hdv, hsd, -⟩ := hmem2 d hdl
      have := toDays_le_of_dle hs2v hdv hsd
      exact dlt_of_toDays_lt hs hdv (by omega)
  · refine ⟨[], ?_, ?_, ?_, ?_, ?_, ?_⟩
    · rw [walkDates.eq_def, dif_neg hle]
    · intro h
      exact absurd h hle
    · intro _
      rfl
    · intro d hd
      simp at hd
    · intro d hdv hsd hde
      exfalso
      apply hle
      have h1 := toDays_le_of_dle hs hdv hsd
      have h2 := toDays_le_of_dle hdv he hde
      exact dle_of_toDays_le hs he (by omega)
    · exact List.Pairwise.nil

/-- The `DateRange` struct: a `HashSet<TDate>` of dates, modelled as a
`Finset` (iteration order of a `HashSet` is not specified). -/
structure DateRange where
  dates : Finset TDate
deriving DecidableEq

/-- `DateRange::new`: validate both endpoints through
`Date::from_calendar_date` (propagating the component-range error), then run
the day-by-day loop and collect the pushed dates into a `HashSet`; the loop's
`next_day().unwrap()` may panic. -/
def DateRange.new (start e : TDate) : Except Error (Panics DateRange) :=
  match TDate.from_calendar_date start.year start.month start.day with
  | .error er => .error er
  | .ok _ =>
    match TDate.from_calendar_date e.year e.month e.day with
    | .error er => .error er
    | .ok _ => .ok ((walkDates e start).map fun l => ⟨l.toFinset⟩)

/-- `DateRange::from_dates`: wrap a caller-supplied collection of dates
(given in its iteration order) into a `HashSet`. -/
def DateRange.from_dates (dates : List TDate) : DateRange := ⟨dates.toFinset⟩

/-- `Date::from_calendar_date` succeeds on (and returns) every valid date. -/
theorem from_calendar_date_ok {d : TDate} (h : ValidDate d) :
    TDate.from_calendar_date d.year d.month d.day = .ok d := by
  obtain ⟨day, m, y⟩ := d
  obtain ⟨h1, h2, h3, h4⟩ := h
  simp only at h1 h2 h3 h4
  unfold TDate.from_calendar_date
  rw [if_pos ⟨h1, h2⟩, if_pos ⟨h3, h4⟩]

/-- A (year, month, day) triple that denotes a real proleptic Gregorian
calendar date, as the spec words it: the day exists in that calendar month
(the month is an enum value, so it is a real month by construction).  This is
the spec-side notion against which `from_calendar_date` is compared; it has
no year-range restriction. -/
def isRealGregorianDate (y : Int) (m : Month) (d : Nat) : Prop :=
  1 ≤ d ∧ d ≤ daysInMonth y m

instance (y : Int) (m : Month) (d : Nat) : Decidable (isRealGregorianDate y m d) := by
  unfold isRealGregorianDate
  exact inferInstance

/-- C9 (amended): `TDate::from_calendar_date(year, month, day)` returns `Ok`
exactly when the triple denotes a real Gregorian calendar date *whose year
lies in the `time` crate's supported range `-9999..=9999`*, and fails with the
component-range error otherwise. -/
theorem claim_C9 (y : Int) (m : Month) (d : Nat) :
    (TDate.from_calendar_date y m d = .ok ⟨d, m, y⟩ ↔
      (isRealGregorianDate y m d ∧ -9999 ≤ y ∧ y ≤ 9999)) ∧
    (¬ (isRealGregorianDate y m d ∧ -9999 ≤ y ∧ y ≤ 9999) →
      ∃ c, TDate.from_calendar_date y m d = .error (.dateParsingError c)) := by
  unfold TDate.from_calendar_date isRealGregorianDate
  constructor
  · constructor
    · intro h
      split at h
      · rename_i hy
        split at h
        · rename_i hd
          exact ⟨hd, hy⟩
        · cases h
      · cases h
    · rintro ⟨⟨h1, h2⟩, h3, h4⟩
      rw [if_pos ⟨h3, h4⟩, if_pos ⟨h1, h2⟩]
  · intro h
    by_cases hy : -9999 ≤ y ∧ y ≤ 9999
    · rw [if_pos hy]
      by_cases hd : 1 ≤ d ∧ d ≤ daysInMonth y m
      · exact absurd ⟨hd, hy⟩ h
      · rw [if_neg hd]
        exact ⟨"day", rfl⟩
    · rw [if_neg hy]
      exact ⟨"year", rfl⟩

/-- C9 witness: day 30 in February of the non-leap year 2023 is not a real
calendar date, and construction rejects it with the component-range error. -/
theorem claim_C9_witness :
    (¬ (isRealGregorianDate 2023 .february 30 ∧ -9999 ≤ (2023 : Int) ∧ (2023 : Int) ≤ 9999)) ∧
    (∃ c, TDate.from_calendar_date 2023 .february 30 = .error (.dateParsingError c)) :=
  ⟨by decide, (claim_C9 2023 .february 30).2 (by decide)⟩

/-- C9 counterexample: January 1 of year 10000 is a real Gregorian calendar
date, yet `TDate::from_calendar_date` rejects it (the `time` crate only
supports years `-9999..=9999`), so "Ok exactly for real Gregorian dates" is
false as stated. -/
theorem claim_C9_counterexample :
    isRealGregorianDate 10000 .january 1 ∧
    TDate.from_calendar_date 10000 .january 1 = .error (.dateParsingError "year") :=
  ⟨by decide, rfl⟩

/-- C2 (amended): for valid `start`/`end` with `end` strictly below the
maximum supported date 9999-12-31, `DateRange::new` does not panic and
produces exactly the days from `start` to `end`: the generated sequence is
strictly ascending, its length is `end − start + 1` (as day numbers) when
`start ≤ end`, it contains every valid date lying between the endpoints and
nothing else, it is empty when `end < start`, and the stored `HashSet` has
exactly one element per generated day. -/
theorem claim_C2 (s e : TDate) (hs : ValidDate s) (he : ValidDate e)
    (hmax : e ≠ maxDate) :
    ∃ l : List TDate,
      walkDates e s = .returns l ∧
      DateRange.new s e = .ok (.returns ⟨l.toFinset⟩) ∧
      (dle s e → (l.length : Int) = toDays e - toDays s + 1) ∧
      (¬ dle s e → l = []) ∧
      l.Pairwise dlt ∧
      (∀ d ∈ l, ValidDate d ∧ dle s d ∧ dle d e) ∧
      (∀ d : TDate, ValidDate d → dle s d → dle d e → d ∈ l) ∧
      l.toFinset.card = l.length := by
  obtain ⟨l, h1, h2, h3, h4, h5, h6⟩ := walkDates_spec he hmax s hs
  have hnd : l.Nodup := h6.imp fun hab heq => absurd (heq ▸ hab) (dlt_irrefl _)
  refine ⟨l, h1, ?_, h2, h3, h6, h4, h5, List.toFinset_card_of_nodup hnd⟩
  unfold DateRange.new
  rw [from_calendar_date_ok hs, from_calendar_date_ok he, h1]
  rfl

/-- C2 witness: the leap-year range 2024-02-28 to 2024-03-01 is produced
without panicking and contains the leap day 2024-02-29. -/
theorem claim_C2_witness :
    (ValidDate ⟨28, .february, 2024⟩ ∧ ValidDate ⟨1, .march, 2024⟩ ∧
      (⟨1, .march, 2024⟩ : TDate) ≠ maxDate) ∧
    (∃ l : List TDate,
      walkDates ⟨1, .march, 2024⟩ ⟨28, .february, 2024⟩ = .returns l ∧
      (⟨29, .february, 2024⟩ : TDate) ∈ l ∧ (l.length : Int) = 3) := by
  refine ⟨⟨by decide, by decide, by decide⟩, ?_⟩
  obtain ⟨l, h1, -, hlen, -, -, -, hall, -⟩ :=
    claim_C2 ⟨28, .february, 2024⟩ ⟨1, .march, 2024⟩ (by decide) (by decide) (by decide)
  refine ⟨l, h1, hall _ (by decide) (by decide) (by decide), ?_⟩
  rw [hlen (by decide)]
  decide

/-- C2 counterexample: both endpoints the valid date 9999-12-31.  The claim
as stated demands a one-element range, but `DateRange::new` panics on
`next_day().unwrap()` at the maximum supported date. -/
theorem claim_C2_counterexample :
    ValidDate maxDate ∧ DateRange.new maxDate maxDate = .ok .panicked := by
  refine ⟨by decide, ?_⟩
  have hw : walkDates maxDate maxDate = .panicked := by
    rw [walkDates.eq_def, dif_pos (dle_rfl maxDate)]
    have h2 : nextDay maxDate = none := by decide
    split
    · rfl
    · rename_i x heq
      rw [heq] at h2
      cases h2
  have hok := from_calendar_date_ok (show ValidDate maxDate by decide)
  unfold DateRange.new
  rw [hok, hw]
  rfl

/-- The 16 German federal states (`Region` enum of `lib.rs`, `repr(u8)`). -/
inductive Region where
  | badenWuerttemberg
  | bayern
  | berlin
  | brandenburg
  | bremen
  | hamburg
  | hessen
  | mecklenburgVorpommern
  | niedersachsen
  | nordrheinWestfalen
  | rheinlandPfalz
  | saarland
  | sachsen
  | sachsenAnhalt
  | schleswigHolstein
  | thueringen
deriving DecidableEq, Repr

/-- The wire code of a region: its `repr(u8)` discriminant, 1-based in
declaration order (`*region as u8`). -/
def Region.code : Region → Nat
  | .badenWuerttemberg => 1
  | .bayern => 2
  | .berlin => 3
  | .brandenburg => 4
  | .bremen => 5
  | .hamburg => 6
  | .hessen => 7
  | .mecklenburgVorpommern => 8
  | .niedersachsen => 9
  | .nordrheinWestfalen => 10
  | .rheinlandPfalz => 11
  | .saarland => 12
  | .sachsen => 13
  | .sachsenAnhalt => 14
  | .schleswigHolstein => 15
  | .thueringen => 16

/-- The `Ressort` enum of `lib.rs` (news categories; `none` = unspecified). -/
inductive Ressort where
  | none
  | inland
  | ausland
  | wirtschaft
  | sport
  | video
  | investigativ
  | wissen
deriving DecidableEq, Repr

/-- `Display for Ressort`: the lowercase wire encoding (empty for `None`). -/
def Ressort.display : Ressort → String
  | .none => ""
  | .inland => "inland"
  | .ausland => "ausland"
  | .wirtschaft => "wirtschaft"
  | .sport => "sport"
  | .video => "video"
  | .investigativ => "investigativ"
  | .wissen => "wissen"

/-- The decimal digit character for `n < 10`. -/
def digitChar (n : Nat) : Char := Char.ofNat (48 + n)

/-- Decimal digits of `n`, most significant first (fuel-structured so that it
evaluates by kernel reduction; `n + 1` units of fuel always suffice). -/
def natDigitsAux : Nat → Nat → List Char
  | 0, _ => []
  | fuel + 1, n =>
    if n < 10 then [digitChar n] else natDigitsAux fuel (n / 10) ++ [digitChar (n % 10)]

/-- Rust `format!("{}", n)` for an unsigned integer: its decimal string. -/
def natStr (n : Nat) : String := ⟨natDigitsAux (n + 1) n⟩

/-- Rust `format!("{}", i)` for a signed integer: decimal with a leading
minus sign when negative. -/
def intStr (i : Int) : String := if i < 0 then "-" ++ natStr i.natAbs else natStr i.toNat

/-- Rust `format!("{:0>2}", n)`: the decimal string left-padded with `'0'`
to at least two characters. -/
def padTwo (n : Nat) : String := ⟨List.replicate (2 - (natStr n).length) '0' ++ (natStr n).data⟩

/-- `Display for TDate` in `lib.rs`: `{}{}{}` applied to `self.year % 100`
(Rust `%` on `i32` is the truncated remainder), the zero-padded month
discriminant and the zero-padded day. -/
def TDate.display (d : TDate) : String :=
  intStr (Int.tmod d.year 100) ++ padTwo d.month.toNat ++ padTwo d.day

/-- The fixed base endpoint (`BASE_URL` of `lib.rs`; `Url::parse` of this
constant succeeds and normalization leaves it unchanged). -/
def BASE_URL : String := "https://www.tagesschau.de/api2u/news"

/-- Uppercase hexadecimal digit for `n < 16`. -/
def hexDigitUpper (n : Nat) : Char := if n < 10 then digitChar n else Char.ofNat (55 + n)

/-- One byte under `form_urlencoded` serialization (the encoder used by
`Url::query_pairs_mut().append_pair`): alphanumerics and `*-._` pass
through, space becomes `+`, every other byte is percent-encoded.  All strings
in this client are ASCII, so bytes coincide with chars. -/
def encodeFormChar (c : Char) : String :=
  if c.isAlphanum ∨ c = '*' ∨ c = '-' ∨ c = '.' ∨ c = '_' then String.singleton c
  else if c = ' ' then "+"
  else "%" ++ ⟨[hexDigitUpper (c.toNat / 16 % 16), hexDigitUpper (c.toNat % 16)]⟩

/-- `form_urlencoded` serialization of a character list. -/
def encodeChars : List Char → List Char
  | [] => []
  | c :: cs => (encodeFormChar c).data ++ encodeChars cs

/-- `form_urlencoded` serialization of a string, character by character. -/
def encodeForm (s : String) : String := ⟨encodeChars s.data⟩

/-- Query pairs joined with `&` as the `form_urlencoded` serializer emits them. -/
def joinAmp : List String → String
  | [] => ""
  | [p] => p
  | p :: rest => p ++ "&" ++ joinAmp rest

/-- `Url::to_string` of the base endpoint with the accumulated query pairs. -/
def renderUrl (pairs : List (String × String)) : String :=
  match pairs with
  | [] => BASE_URL
  | _ => BASE_URL ++ "?" ++ joinAmp (pairs.map fun p => encodeForm p.1 ++ "=" ++ encodeForm p.2)

/-- The `regions` query value: the loop pushes `"{code},"` for each region in
`HashSet` iteration order (note the trailing comma). -/
def regionsValue (regions : List Region) : String :=
  String.join (regions.map fun r => natStr r.code ++ ",")

/-- `TRequestBuilder::prepare_url` at the query-pair level: append `date`
always, `regions` when the region set is non-empty, `ressort` when the
ressort is not `None`.  The `regions` list parameter is the iteration order
of the builder's `HashSet<Region>`. -/
def prepareUrlPairs (regions : List Region) (ressort : Ressort) (date : TDate) :
    List (String × String) :=
  let p1 := [("date", date.display)]
  let p2 := if regions.isEmpty then p1 else p1 ++ [("regions", regionsValue regions)]
  if ressort = .none then p2 else p2 ++ [("ressort", ressort.display)]

/-- `TRequestBuilder::prepare_url`: parse the base URL (which cannot fail for
the fixed constant), append the query pairs, and serialize. -/
def prepareUrl (regions : List Region) (ressort : Ressort) (date : TDate) :
    Except Error String :=
  .ok (renderUrl (prepareUrlPairs regions ressort date))

/-- A one-digit number prints as one character. -/
theorem natDigitsAux_small (fuel n : Nat) (h : n < 10) :
    natDigitsAux (fuel + 1) n = [digitChar n] := by
  simp [natDigitsAux, h]

/-- Length of the decimal string of a one-digit number. -/
theorem natStr_len_one {n : Nat} (h : n < 10) : (natStr n).length = 1 := by
  unfold natStr
  rw [natDigitsAux_small n n h]
  rfl

/-- Length of the decimal string of a two-digit number. -/
theorem natStr_len_two {n : Nat} (h1 : 10 ≤ n) (h2 : n ≤ 99) : (natStr n).length = 2 := by
  unfold natStr
  have hn10 : ¬ n < 10 := by omega
  obtain ⟨k, hk⟩ : ∃ k, n = k + 1 := ⟨n - 1, by omega⟩
  subst hk
  simp only [natDigitsAux, if_neg hn10]
  rw [if_pos (show (k + 1) / 10 < 10 by omega)]
  rfl

/-- `{:0>2}` always yields exactly two characters for numbers up to 99. -/
theorem padTwo_len {n : Nat} (h : n ≤ 99) : (padTwo n).length = 2 := by
  have hl : (natStr n).length = 1 ∨ (natStr n).length = 2 := by
    rcases Nat.lt_or_ge n 10 with h1 | h1
    · exact Or.inl (natStr_len_one h1)
    · exact Or.inr (natStr_len_two h1 h)
  simp only [padTwo, String.length] at hl ⊢
  simp only [List.length_append, List.length_replicate]
  omega

/-- `{}` of a non-negative integer is the decimal string of its magnitude. -/
theorem intStr_nonneg {i : Int} (h : 0 ≤ i) : intStr i = natStr i.toNat := by
  unfold intStr
  rw [if_neg (by omega)]

/-- A two-digit number needs no padding: `{:0>2}` prints it as `{}` does. -/
theorem padTwo_of_len_two {n : Nat} (h : (natStr n).length = 2) : padTwo n = natStr n := by
  unfold padTwo
  rw [h]
  simp

/-- C1 (amended): the `date` query-pair value produced by `prepare_url` is
`Display for TDate`, which prints `year % 100` *unpadded*.  For every date
whose year has a two-digit remainder (`10 ≤ year % 100`, Rust truncated
remainder), the value is exactly the six-character zero-padded YYMMDD form;
for years with `year % 100 < 10` the year part is shorter than two digits and
the six-character format fails (see the counterexample). -/
theorem claim_C1 (regions : List Region) (ressort : Ressort) (d : TDate)
    (hday : d.day ≤ 31) (hy : 10 ≤ Int.tmod d.year 100) :
    ("date", d.display) ∈ prepareUrlPairs regions ressort d ∧
    d.display =
      padTwo (Int.tmod d.year 100).toNat ++ padTwo d.month.toNat ++ padTwo d.day ∧
    d.display.length = 6 := by
  have h99 : Int.tmod d.year 100 < 100 := Int.tmod_lt_of_pos d.year (by omega)
  have hlen2 : (natStr (Int.tmod d.year 100).toNat).length = 2 :=
    natStr_len_two (by omega) (by omega)
  have hdisp : d.display =
      padTwo (Int.tmod d.year 100).toNat ++ padTwo d.month.toNat ++ padTwo d.day := by
    unfold TDate.display
    rw [intStr_nonneg (by omega), padTwo_of_len_two hlen2]
  refine ⟨?_, hdisp, ?_⟩
  · unfold prepareUrlPairs
    split <;> split <;> simp
  · rw [hdisp, String.length_append, String.length_append]
    have l1 : (padTwo (Int.tmod d.year 100).toNat).length = 2 := padTwo_len (by omega)
    have l2 : (padTwo d.month.toNat).length = 2 :=
      padTwo_len (by have := Month.toNat_bounds d.month; omega)
    have l3 : (padTwo d.day).length = 2 := padTwo_len (by omega)
    omega

/-- C1 witness: 2025-01-15 is rendered as the six characters `250115` and is
the value of the `date` query pair. -/
theorem claim_C1_witness :
    ((⟨15, .january, 2025⟩ : TDate).day ≤ 31 ∧ 10 ≤ Int.tmod (2025 : Int) 100) ∧
    (("date", TDate.display ⟨15, .january, 2025⟩) ∈
        prepareUrlPairs [] .none ⟨15, .january, 2025⟩ ∧
      TDate.display ⟨15, .january, 2025⟩ =
        padTwo (Int.tmod (2025 : Int) 100).toNat ++ padTwo (Month.january).toNat ++ padTwo 15 ∧
      (TDate.display ⟨15, .january, 2025⟩).length = 6) ∧
    TDate.display ⟨15, .january, 2025⟩ = "250115" :=
  ⟨⟨by decide, by decide⟩, claim_C1 [] .none ⟨15, .january, 2025⟩ (by decide) (by decide),
    by decide⟩

/-- C1 counterexample: for 2005-01-15 the year part `2005 % 100 = 5` prints
as a single character, so the `date` value is the five-character `50115`,
not a six-character YYMMDD string. -/
theorem claim_C1_counterexample :
    ("date", TDate.display ⟨15, .january, 2005⟩) ∈
      prepareUrlPairs [] .none ⟨15, .january, 2005⟩ ∧
    TDate.display ⟨15, .january, 2005⟩ = "50115" ∧
    (TDate.display ⟨15, .january, 2005⟩).length ≠ 6 := by
  decide

/-- Decimal digit characters are digits. -/
theorem digitChar_isDigit {n : Nat} (h : n < 10) : (digitChar n).isDigit = true := by
  interval_cases n <;> decide

/-- Every character printed by the decimal formatter is a digit. -/
theorem natDigitsAux_digits (fuel : Nat) :
    ∀ n, ∀ c ∈ natDigitsAux fuel n, c.isDigit = true := by
  induction fuel with
  | zero =>
    intro n c hc
    simp [natDigitsAux] at hc
  | succ fuel ih =>
    intro n c hc
    by_cases h : n < 10
    · simp only [natDigitsAux, if_pos h, List.mem_singleton] at hc
      subst hc
      exact digitChar_isDigit h
    · simp only [natDigitsAux, if_neg h, List.mem_append, List.mem_singleton] at hc
      rcases hc with hc | hc
      · exact ih _ c hc
      · subst hc
        exact digitChar_isDigit (by omega)

/-- Every character of a formatted date is a digit or a minus sign. -/
theorem display_chars (d : TDate) : ∀ c ∈ d.display.data, c.isDigit = true ∨ c = '-' := by
  intro c hc
  unfold TDate.display at hc
  simp only [String.data_append, List.mem_append] at hc
  have hnat : ∀ k : Nat, c ∈ (natStr k).data → c.isDigit = true := by
    intro k hk
    exact natDigitsAux_digits (k + 1) k c hk
  have hpad : ∀ k : Nat, c ∈ (padTwo k).data → c.isDigit = true := by
    intro k hk
    simp only [padTwo, List.mem_append] at hk
    rcases hk with hk | hk
    · rw [List.eq_of_mem_replicate hk]
      decide
    · exact hnat k hk
  rcases hc with (hc | hc) | hc
  · unfold intStr at hc
    split at hc
    · simp only [String.data_append, List.mem_append] at hc
      rcases hc with hc | hc
      · right
        simpa using hc
      · exact Or.inl (hnat _ hc)
    · exact Or.inl (hnat _ hc)
  · exact Or.inl (hpad _ hc)
  · exact Or.inl (hpad _ hc)

/-- Digits and the minus sign pass through `form_urlencoded` unchanged. -/
theorem encodeFormChar_id {c : Char} (h : c.isDigit = true ∨ c = '-') :
    encodeFormChar c = String.singleton c := by
  unfold encodeFormChar
  rcases h with h | h
  · rw [if_pos]
    left
    simp [Char.isAlphanum, h]
  · subst h
    rfl

/-- A list of digits/minus characters is its own `form_urlencoded` encoding. -/
theorem encodeChars_id : ∀ l : List Char, (∀ c ∈ l, c.isDigit = true ∨ c = '-') →
    encodeChars l = l := by
  intro l
  induction l with
  | nil => intro _; rfl
  | cons c cs ih =>
    intro h
    unfold encodeChars
    rw [encodeFormChar_id (h c (List.mem_cons_self c cs)), ih fun x hx => h x (List.mem_cons_of_mem c hx)]
    rfl

/-- The formatted date is unchanged by `form_urlencoded` serialization. -/
theorem encodeForm_display (d : TDate) : encodeForm d.display = d.display := by
  unfold encodeForm
  rw [encodeChars_id _ (display_chars d)]

/-- C6: `prepare_url` appends the `regions` parameter iff the configured
region set is non-empty and the `ressort` parameter iff the ressort is not
`None`; with an empty region set and `Ressort::None` the produced URL is the
base endpoint carrying only the `date` parameter. -/
theorem claim_C6 (regions : List Region) (ressort : Ressort) (d : TDate) :
    ((∃ v, ("regions", v) ∈ prepareUrlPairs regions ressort d) ↔ regions ≠ []) ∧
    ((∃ v, ("ressort", v) ∈ prepareUrlPairs regions ressort d) ↔ ressort ≠ .none) ∧
    (regions = [] → ressort = .none →
      prepareUrl regions ressort d = .ok (BASE_URL ++ "?date=" ++ d.display)) := by
  refine ⟨?_, ?_, ?_⟩
  · simp only [prepareUrlPairs]
    by_cases hr : regions.isEmpty <;> by_cases hn : ressort = Ressort.none <;>
      simp_all [List.isEmpty_iff]
  · simp only [prepareUrlPairs]
    by_cases hr : regions.isEmpty <;> by_cases hn : ressort = Ressort.none <;>
      simp_all [List.isEmpty_iff]
  · intro h1 h2
    subst h1
    subst h2
    unfold prepareUrl renderUrl prepareUrlPairs
    have hd : encodeForm "date" = "date" := by decide
    simp only [List.isEmpty_nil, if_pos rfl, if_pos, List.map_cons, List.map_nil, joinAmp,
      hd, encodeForm_display]
    apply congrArg
    apply String.ext
    simp only [String.data_append]
    simp only [← List.append_assoc]
    rfl

/-- C6 witness: for the empty region set, `Ressort::None` and 2025-01-15, the
parameter-presence equivalences hold and the URL is the base endpoint with
only the `date` parameter. -/
theorem claim_C6_witness :
    ((∃ v, ("regions", v) ∈ prepareUrlPairs [] .none ⟨15, .january, 2025⟩) ↔ ([] : List Region) ≠ []) ∧
    ((∃ v, ("ressort", v) ∈ prepareUrlPairs [] .none ⟨15, .january, 2025⟩) ↔ Ressort.none ≠ .none) ∧
    prepareUrl [] .none ⟨15, .january, 2025⟩ =
      .ok (BASE_URL ++ "?date=" ++ TDate.display ⟨15, .january, 2025⟩) := by
  obtain ⟨h1, h2, h3⟩ := claim_C6 [] .none ⟨15, .january, 2025⟩
  exact ⟨h1, h2, h3 rfl rfl⟩

/-- C7: with region set {Berlin, Bayern} (any iteration order of the
`HashSet`) and category Sport, the prepared URL carries `ressort=sport` and a
`regions` value that comma-joins the wire codes 3 (Berlin) and 2 (Bayern) in
iteration order, with a trailing comma. -/
theorem claim_C7 (l : List Region) (d : TDate)
    (hperm : l.Perm [Region.berlin, Region.bayern]) :
    ("ressort", "sport") ∈ prepareUrlPairs l .sport d ∧
    ∃ v, ("regions", v) ∈ prepareUrlPairs l .sport d ∧
      (v = "3,2," ∨ v = "2,3,") := by
  have hl : l = [Region.berlin, Region.bayern] ∨ l = [Region.bayern, Region.berlin] := by
    have hlen := hperm.length_eq
    match l, hlen with
    | [a, b], _ =>
      have ha : a ∈ [Region.berlin, Region.bayern] := hperm.mem_iff.mp (by simp)
      have hb : b ∈ [Region.berlin, Region.bayern] := hperm.mem_iff.mp (by simp)
      simp only [List.mem_cons, List.mem_singleton, List.not_mem_nil, or_false] at ha hb
      rcases ha with rfl | rfl <;> rcases hb with rfl | rfl
      · exact absurd (hperm.mem_iff.mpr (show Region.bayern ∈ _ by simp)) (by simp)
      · exact Or.inl rfl
      · exact Or.inr rfl
      · exact absurd (hperm.mem_iff.mpr (show Region.berlin ∈ _ by simp)) (by simp)
  have hval1 : regionsValue [Region.berlin, Region.bayern] = "3,2," := by decide
  have hval2 : regionsValue [Region.bayern, Region.berlin] = "2,3," := by decide
  rcases hl with rfl | rfl
  · refine ⟨by simp [prepareUrlPairs, Ressort.display], "3,2,", ?_, Or.inl rfl⟩
    simp [prepareUrlPairs, hval1]
  · refine ⟨by simp [prepareUrlPairs, Ressort.display], "2,3,", ?_, Or.inr rfl⟩
    simp [prepareUrlPairs, hval2]

/-- C7 witness: the iteration order Berlin, Bayern instantiates the claim. -/
theorem claim_C7_witness :
    [Region.berlin, Region.bayern].Perm [Region.berlin, Region.bayern] ∧
    (("ressort", "sport") ∈ prepareUrlPairs [Region.berlin, Region.bayern] .sport ⟨15, .january, 2025⟩ ∧
    ∃ v, ("regions", v) ∈ prepareUrlPairs [Region.berlin, Region.bayern] .sport ⟨15, .january, 2025⟩ ∧
      (v = "3,2," ∨ v = "2,3,")) :=
  ⟨List.Perm.refl _, claim_C7 [Region.berlin, Region.bayern] ⟨15, .january, 2025⟩ (List.Perm.refl _)⟩

/-- A JSON value (the `serde_json` data model; JSON numbers are reduced to
`Int`, which is enough because no decoded field of this library reads a
number). -/
inductive Json where
  | null
  | bool (b : Bool)
  | num (n : Int)
  | str (s : String)
  | arr (elems : List Json)
  | obj (fields : List (String × Json))

/-- Field lookup in a JSON object.  The library's inputs have no duplicate
keys, so first-match lookup models serde's map access. -/
def jlookup (k : String) : List (String × Json) → Option Json
  | [] => none
  | (k2, v) :: rest => if k2 = k then some v else jlookup k rest

/-- `String::deserialize`. -/
def decodeString : Json → Except String String
  | .str s => .ok s
  | _ => .error "expected string"

/-- `bool::deserialize`. -/
def decodeBool : Json → Except String Bool
  | .bool b => .ok b
  | _ => .error "expected bool"

/-- The numeric value of a digit character. -/
def digitVal (c : Char) : Int := Int.ofNat (c.toNat - 48)

/-- Modelled from the external `time::serde::rfc3339` deserializer (the
`time` crate is an external collaborator): accepts timestamps of the shape
`YYYY-MM-DDThh:mm:ssZ` and yields a value that orders chronologically for
such strings.  The claims only need parse success and the ordering of parsed
values. -/
def parseRfc3339 (s : String) : Option Int :=
  match s.data with
  | [y1, y2, y3, y4, '-', mo1, mo2, '-', d1, d2, 'T',
     h1, h2, ':', mi1, mi2, ':', s1, s2, 'Z'] =>
    if y1.isDigit ∧ y2.isDigit ∧ y3.isDigit ∧ y4.isDigit ∧
        mo1.isDigit ∧ mo2.isDigit ∧ d1.isDigit ∧ d2.isDigit ∧
        h1.isDigit ∧ h2.isDigit ∧ mi1.isDigit ∧ mi2.isDigit ∧
        s1.isDigit ∧ s2.isDigit then
      let yv := ((digitVal y1 * 10 + digitVal y2) * 10 + digitVal y3) * 10 + digitVal y4
      let mov := digitVal mo1 * 10 + digitVal mo2
      let dayv := digitVal d1 * 10 + digitVal d2
      let hv := digitVal h1 * 10 + digitVal h2
      let miv := digitVal mi1 * 10 + digitVal mi2
      let sv := digitVal s1 * 10 + digitVal s2
      some (((((yv * 100 + mov) * 100 + dayv) * 100 + hv) * 100 + miv) * 100 + sv)
    else none
  | _ => none

/-- The `#[serde(with = "rfc3339")]` field deserializer. -/
def decodeRfc3339 : Json → Except String Int
  | .str s =>
    match parseRfc3339 s with
    | some t => .ok t
    | none => .error "invalid rfc3339 timestamp"
  | _ => .error "expected string"

/-- The custom `Deserialize for Ressort` of `lib.rs`: a string matched
against the wire encodings, the empty string giving `Ressort::None`. -/
def decodeRessort : Json → Except String Ressort
  | .str s =>
    match s with
    | "" => .ok .none
    | "inland" => .ok .inland
    | "ausland" => .ok .ausland
    | "wirtschaft" => .ok .wirtschaft
    | "sport" => .ok .sport
    | "video" => .ok .video
    | "investigativ" => .ok .investigativ
    | "wissen" => .ok .wissen
    | _ => .error "String does not contain expected value"
  | _ => .error "expected string"

/-- The `Tag` struct of `lib.rs`. -/
structure Tag where
  tag : String
deriving DecidableEq, Repr

/-- Deserialization of a `Tag`: an object with a required `tag` string. -/
def decodeTag : Json → Except String Tag
  | .obj fs =>
    match jlookup "tag" fs with
    | some v => (decodeString v).map Tag.mk
    | none => .error "missing field tag"
  | _ => .error "expected object"

/-- A required struct field: present and decodable, else an error. -/
def reqField (fs : List (String × Json)) (k : String) (dec : Json → Except String α) :
    Except String α :=
  match jlookup k fs with
  | some v => dec v
  | none => .error ("missing field " ++ k)

/-- An `Option<T>` struct field: serde defaults a missing field to `None`,
maps JSON `null` to `None`, and otherwise requires a decodable value. -/
def optField (fs : List (String × Json)) (k : String) (dec : Json → Except String α) :
    Except String (Option α) :=
  match jlookup k fs with
  | Option.none => .ok Option.none
  | some .null => .ok Option.none
  | some v => (dec v).map Option.some

/-- `Vec<T>::deserialize`, element-wise. -/
def decodeList (dec : Json → Except String α) : Json → Except String (List α)
  | .arr elems => elems.mapM dec
  | _ => .error "expected array"

/-- `HashMap<String, String>::deserialize`; the map is modelled as its entry
list in JSON order. -/
def decodeStrMap : Json → Except String (List (String × String))
  | .obj fs => fs.mapM fun kv => (decodeString kv.2).map fun s => (kv.1, s)
  | _ => .error "expected map"

/-- The `Image` struct of `lib.rs` (field `kind` is serde-renamed `type`,
`image_variants` is serde-renamed `imageVariants`). -/
structure Image where
  title : Option String
  copyright : Option String
  alttext : Option String
  image_variants : Option (List (String × String))
  kind : String
deriving DecidableEq, Repr

/-- `Image::deserialize`: three optional strings, an optional variant map and
a required `type` string. -/
def decodeImage : Json → Except String Image
  | .obj fs => do
    let title ← optField fs "title" decodeString
    let copyright ← optField fs "copyright" decodeString
    let alttext ← optField fs "alttext" decodeString
    let variants ← optField fs "imageVariants" decodeStrMap
    let kind ← reqField fs "type" decodeString
    .ok ⟨title, copyright, alttext, variants, kind⟩
  | _ => .error "expected object"

/-- `Image::image_variants` (the public getter): calls
`self.image_variants.as_ref().unwrap()`, so it panics when the optional field
is absent. -/
def Image.image_variants_getter (i : Image) : Panics (List (String × String)) :=
  match i.image_variants with
  | Option.none => .panicked
  | Option.some m => .returns m

/-- The `TextArticle` struct of `lib.rs` (`first_sentence` is serde-renamed
`firstSentence`, `url` is `detailsweb`, `kind` is `type`, `breaking_news` is
`breakingNews`, `image` is `teaserImage`). -/
structure TextArticle where
  title : String
  first_sentence : String
  date : Int
  url : String
  tags : Option (List Tag)
  ressort : Option Ressort
  kind : String
  breaking_news : Option Bool
  image : Option Image
deriving DecidableEq, Repr

/-- The `Video` struct of `lib.rs` (requires a `streams` map instead of the
text-article fields). -/
structure Video where
  title : String
  date : Int
  streams : List (String × String)
  tags : Option (List Tag)
  ressort : Option Ressort
  kind : String
  breaking_news : Option Bool
  image : Option Image
deriving DecidableEq, Repr

/-- `TextArticle::deserialize`, field by field in declaration order. -/
def decodeTextArticle : Json → Except String TextArticle
  | .obj fs => do
    let title ← reqField fs "title" decodeString
    let fsent ← reqField fs "firstSentence" decodeString
    let date ← reqField fs "date" decodeRfc3339
    let url ← reqField fs "detailsweb" decodeString
    let tags ← optField fs "tags" (decodeList decodeTag)
    let ressort ← optField fs "ressort" decodeRessort
    let kind ← reqField fs "type" decodeString
    let bn ← optField fs "breakingNews" decodeBool
    let img ← optField fs "teaserImage" decodeImage
    .ok ⟨title, fsent, date, url, tags, ressort, kind, bn, img⟩
  | _ => .error "expected object"

/-- `Video::deserialize`, field by field in declaration order. -/
def decodeVideo : Json → Except String Video
  | .obj fs => do
    let title ← reqField fs "title" decodeString
    let date ← reqField fs "date" decodeRfc3339
    let streams ← reqField fs "streams" decodeStrMap
    let tags ← optField fs "tags" (decodeList decodeTag)
    let ressort ← optField fs "ressort" decodeRessort
    let kind ← reqField fs "type" decodeString
    let bn ← optField fs "breakingNews" decodeBool
    let img ← optField fs "teaserImage" decodeImage
    .ok ⟨title, date, streams, tags, ressort, kind, bn, img⟩
  | _ => .error "expected object"

/-- The untagged `Content` enum of `lib.rs`. -/
inductive Content where
  | textArticle (t : TextArticle)
  | video (v : Video)
deriving DecidableEq, Repr

/-- `#[serde(untagged)]` deserialization of `Content`: attempt the variants
in declaration order — `TextArticle` first, then `Video`. -/
def decodeContent (j : Json) : Except String Content :=
  match decodeTextArticle j with
  | .ok t => .ok (.textArticle t)
  | .error _ =>
    match decodeVideo j with
    | .ok v => .ok (.video v)
    | .error _ => .error "data did not match any variant of untagged enum Content"

/-- The publish timestamp of a `Content` (the sort key of `get_all_articles`). -/
def contentDate : Content → Int
  | .textArticle t => t.date
  | .video v => v.date

/-- The `Articles` envelope: `{ "news": [...] }`. -/
structure Articles where
  news : List Content
deriving DecidableEq, Repr

/-- `Articles::deserialize`. -/
def decodeArticles : Json → Except String Articles
  | .obj fs => do
    let news ← reqField fs "news" (decodeList decodeContent)
    .ok ⟨news⟩
  | _ => .error "expected object"

/-- Bind on a successful `Except` applies the continuation. -/
theorem except_bind_ok (a : α) (f : α → Except ε β) :
    (Except.ok a : Except ε α) >>= f = f a := rfl

/-- Bind on a failed `Except` propagates the error. -/
theorem except_bind_err (e : ε) (f : α → Except ε β) :
    (Except.error e : Except ε α) >>= f = .error e := rfl

/-- A required string field decodes to its value. -/
theorem reqField_str {fs : List (String × Json)} {k s : String}
    (h : jlookup k fs = some (.str s)) : reqField fs k decodeString = .ok s := by
  simp [reqField, h, decodeString]

/-- A required timestamp field decodes to its parsed value. -/
theorem reqField_rfc {fs : List (String × Json)} {k ds : String} {t : Int}
    (h1 : jlookup k fs = some (.str ds)) (h2 : parseRfc3339 ds = some t) :
    reqField fs k decodeRfc3339 = .ok t := by
  simp [reqField, h1, decodeRfc3339, h2]

/-- A missing required field is an error. -/
theorem reqField_missing {fs : List (String × Json)} {k : String}
    (dec : Json → Except String α) (h : jlookup k fs = Option.none) :
    reqField fs k dec = .error ("missing field " ++ k) := by
  simp [reqField, h]

/-- An optional field decodes successfully (to some `Option` value). -/
def optFieldOk (fs : List (String × Json)) (k : String)
    (dec : Json → Except String α) : Prop :=
  ∃ v, optField fs k dec = .ok v

/-- If `TextArticle` decoding fails, untagged decoding falls through to
`Video`. -/
theorem decodeContent_of_text_err {j : Json} {msg : String} {v : Video}
    (h1 : decodeTextArticle j = .error msg) (h2 : decodeVideo j = .ok v) :
    decodeContent j = .ok (.video v) := by
  simp [decodeContent, h1, h2]

/-- C3: an item carrying the required text-article fields (notably
`detailsweb`) decodes as the `TextArticle` variant; an item carrying a
`streams` map but no `detailsweb` fails the `TextArticle` shape and decodes
as the `Video` variant; and the `TextArticle` shape is attempted first — any
item accepted by it yields the `TextArticle` variant. -/
theorem claim_C3 :
    (∀ (fs : List (String × Json)) (tt fsent ds u ki : String) (t : Int),
      jlookup "title" fs = some (.str tt) →
      jlookup "firstSentence" fs = some (.str fsent) →
      jlookup "date" fs = some (.str ds) →
      parseRfc3339 ds = some t →
      jlookup "detailsweb" fs = some (.str u) →
      jlookup "type" fs = some (.str ki) →
      jlookup "streams" fs = Option.none →
      optFieldOk fs "tags" (decodeList decodeTag) →
      optFieldOk fs "ressort" decodeRessort →
      optFieldOk fs "breakingNews" decodeBool →
      optFieldOk fs "teaserImage" decodeImage →
      ∃ ta : TextArticle, decodeContent (.obj fs) = .ok (.textArticle ta) ∧
        ta.url = u ∧ ta.title = tt ∧ ta.date = t) ∧
    (∀ (fs : List (String × Json)) (tt ds ki : String) (t : Int)
        (sv : List (String × Json)) (m : List (String × String)),
      jlookup "title" fs = some (.str tt) →
      jlookup "date" fs = some (.str ds) →
      parseRfc3339 ds = some t →
      jlookup "detailsweb" fs = Option.none →
      jlookup "streams" fs = some (.obj sv) →
      decodeStrMap (.obj sv) = .ok m →
      jlookup "type" fs = some (.str ki) →
      optFieldOk fs "tags" (decodeList decodeTag) →
      optFieldOk fs "ressort" decodeRessort →
      optFieldOk fs "breakingNews" decodeBool →
      optFieldOk fs "teaserImage" decodeImage →
      ∃ vid : Video, decodeContent (.obj fs) = .ok (.video vid) ∧
        vid.streams = m ∧ vid.title = tt ∧ vid.date = t) ∧
    (∀ (j : Json) (ta : TextArticle),
      decodeTextArticle j = .ok ta → decodeContent j = .ok (.textArticle ta)) := by
  refine ⟨?_, ?_, ?_⟩
  · intro fs tt fsent ds u ki t h1 h2 h3 h4 h5 h6 _h7 htags hres hbn himg
    obtain ⟨tagv, htagv⟩ := htags
    obtain ⟨resv, hresv⟩ := hres
    obtain ⟨bnv, hbnv⟩ := hbn
    obtain ⟨imgv, himgv⟩ := himg
    have hta : decodeTextArticle (.obj fs) =
        .ok ⟨tt, fsent, t, u, tagv, resv, ki, bnv, imgv⟩ := by
      simp only [decodeTextArticle, reqField_str h1, reqField_str h2, reqField_rfc h3 h4,
        reqField_str h5, reqField_str h6, htagv, hresv, hbnv, himgv, except_bind_ok]
    refine ⟨⟨tt, fsent, t, u, tagv, resv, ki, bnv, imgv⟩, ?_, rfl, rfl, rfl⟩
    simp [decodeContent, hta]
  · intro fs tt ds ki t sv m h1 h2 h3 h4 h5 h6 h7 htags hres hbn himg
    obtain ⟨tagv, htagv⟩ := htags
    obtain ⟨resv, hresv⟩ := hres
    obtain ⟨bnv, hbnv⟩ := hbn
    obtain ⟨imgv, himgv⟩ := himg
    have hvid : decodeVideo (.obj fs) =
        .ok ⟨tt, t, m, tagv, resv, ki, bnv, imgv⟩ := by
      have hstream : reqField fs "streams" decodeStrMap = .ok m := by
        simp [reqField, h5, h6]
      simp only [decodeVideo, reqField_str h1, reqField_rfc h2 h3, hstream,
        reqField_str h7, htagv, hresv, hbnv, himgv, except_bind_ok]
    have hterr : ∃ msg, decodeTextArticle (.obj fs) = .error msg := by
      cases hfs : reqField fs "firstSentence" decodeString with
      | error msg =>
        refine ⟨msg, ?_⟩
        simp only [decodeTextArticle, reqField_str h1, hfs, except_bind_ok, except_bind_err]
      | ok fsent =>
        refine ⟨"missing field " ++ "detailsweb", ?_⟩
        simp only [decodeTextArticle, reqField_str h1, hfs, reqField_rfc h2 h3,
          reqField_missing decodeString h4, except_bind_ok, except_bind_err]
    obtain ⟨msg, hmsg⟩ := hterr
    exact ⟨⟨tt, t, m, tagv, resv, ki, bnv, imgv⟩,
      decodeContent_of_text_err hmsg hvid, rfl, rfl, rfl⟩
  · intro j ta h
    simp [decodeContent, h]

/-- C3 witness: a concrete text-article item (with `detailsweb`, without
`streams`) decodes as `TextArticle`, and a concrete video item (with
`streams`, without `detailsweb`) decodes as `Video`. -/
theorem claim_C3_witness :
    (∃ ta : TextArticle,
      decodeContent (.obj [("title", .str "T"), ("firstSentence", .str "S"),
        ("date", .str "2024-05-01T12:00:00Z"), ("detailsweb", .str "https://a"),
        ("type", .str "story")]) = .ok (.textArticle ta) ∧
      ta.url = "https://a" ∧ ta.title = "T" ∧ ta.date = 20240501120000) ∧
    (∃ vid : Video,
      decodeContent (.obj [("title", .str "V"), ("date", .str "2024-05-01T13:00:00Z"),
        ("type", .str "video"),
        ("streams", .obj [("h264", .str "https://s")])]) = .ok (.video vid) ∧
      vid.streams = [("h264", "https://s")] ∧ vid.title = "V" ∧
        vid.date = 20240501130000) := by
  constructor
  · exact claim_C3.1 [("title", .str "T"), ("firstSentence", .str "S"),
      ("date", .str "2024-05-01T12:00:00Z"), ("detailsweb", .str "https://a"),
      ("type", .str "story")] "T" "S" "2024-05-01T12:00:00Z" "https://a" "story"
      20240501120000 rfl rfl rfl rfl rfl rfl rfl
      ⟨Option.none, rfl⟩ ⟨Option.none, rfl⟩ ⟨Option.none, rfl⟩ ⟨Option.none, rfl⟩
  · exact claim_C3.2.1 [("title", .str "V"), ("date", .str "2024-05-01T13:00:00Z"),
      ("type", .str "video"), ("streams", .obj [("h264", .str "https://s")])]
      "V" "2024-05-01T13:00:00Z" "video" 20240501130000
      [("h264", .str "https://s")] [("h264", "https://s")]
      rfl rfl rfl rfl rfl rfl rfl
      ⟨Option.none, rfl⟩ ⟨Option.none, rfl⟩ ⟨Option.none, rfl⟩ ⟨Option.none, rfl⟩

/-- C10: an `Image` deserialized from a JSON object without an
`imageVariants` key has `image_variants = None`, and the public getter
`Image::image_variants()` (which unwraps the option) panics on it instead of
returning an empty map or an error. -/
theorem claim_C10 (fs : List (String × Json)) (img : Image)
    (habs : jlookup "imageVariants" fs = Option.none)
    (hdec : decodeImage (.obj fs) = .ok img) :
    img.image_variants = Option.none ∧ img.image_variants_getter = .panicked := by
  have hv : optField fs "imageVariants" decodeStrMap = .ok Option.none := by
    simp [optField, habs]
  simp only [decodeImage] at hdec
  cases h1 : optField fs "title" decodeString with
  | error e =>
    rw [h1, except_bind_err] at hdec
    cases hdec
  | ok tv =>
  rw [h1, except_bind_ok] at hdec
  cases h2 : optField fs "copyright" decodeString with
  | error e =>
    rw [h2, except_bind_err] at hdec
    cases hdec
  | ok cv =>
  rw [h2, except_bind_ok] at hdec
  cases h3 : optField fs "alttext" decodeString with
  | error e =>
    rw [h3, except_bind_err] at hdec
    cases hdec
  | ok av =>
  rw [h3, except_bind_ok] at hdec
  rw [hv, except_bind_ok] at hdec
  cases h4 : reqField fs "type" decodeString with
  | error e =>
    rw [h4, except_bind_err] at hdec
    cases hdec
  | ok kv =>
  rw [h4, except_bind_ok] at hdec
  cases hdec
  exact ⟨rfl, rfl⟩

/-- C10 witness: the minimal image object `{"type": "image"}` decodes
successfully, and its `image_variants()` getter panics. -/
theorem claim_C10_witness :
    jlookup "imageVariants" [("type", Json.str "image")] = Option.none ∧
    decodeImage (.obj [("type", Json.str "image")]) =
      .ok ⟨Option.none, Option.none, Option.none, Option.none, "image"⟩ ∧
    (Image.mk Option.none Option.none Option.none Option.none "image").image_variants
      = Option.none ∧
    (Image.mk Option.none Option.none Option.none Option.none "image").image_variants_getter
      = .panicked :=
  ⟨rfl, rfl,
    (claim_C10 [("type", Json.str "image")] _ rfl rfl).1,
    (claim_C10 [("type", Json.str "image")] _ rfl rfl).2⟩

/-- An HTTP response as the fetch step observes it: the numeric status code
and the body read, which may fail at the transport (`response.text()`); a
successful read carries the body already parsed by the external JSON engine
(`serde_json`'s text layer is out of modelled scope, its shape/type errors
are produced by the typed decoders here). -/
structure Response where
  status : Nat
  bodyRead : Except String Json

/-- `TRequestBuilder::fetch` (and the identical `fetch_blocking`): prepare
the URL, issue the GET against it (the per-date `resp` map models the
network), match on the status — any non-200 status fails with
`InvalidResponse(status)` before the body is touched — otherwise read the
body text and deserialize the `Articles` envelope.  Connection-level
`reqwest::get` failures (`Error::BadRequest`) are not modelled; no claim
concerns them. -/
def fetch (resp : TDate → Response) (regions : List Region) (ressort : Ressort)
    (date : TDate) : Except Error Articles :=
  match prepareUrl regions ressort date with
  | .error e => .error e
  | .ok _url =>
    let r := resp date
    if r.status = 200 then
      match r.bodyRead with
      | .error msg => .error (.parsingError msg)
      | .ok j =>
        match decodeArticles j with
        | .error msg => .error (.deserializationError msg)
        | .ok a => .ok a
    else
      .error (.invalidResponse r.status)

/-- The aggregation loop of `get_all_articles`:
`for date in dates { let mut art = self.fetch(date).await?; content.append(&mut art.news) }`. -/
def collectNews (resp : TDate → Response) (regions : List Region) (ressort : Ressort) :
    List TDate → List Content → Except Error (List Content)
  | [], acc => .ok acc
  | d :: ds, acc =>
    match fetch resp regions ressort d with
    | .error e => .error e
    | .ok a => collectNews resp regions ressort ds (acc ++ a.news)

/-- The comparator of `content.sort_by(...)`: order by publish timestamp. -/
def dateLE (a b : Content) : Bool := decide (contentDate a ≤ contentDate b)

/-- `TRequestBuilder::get_all_articles` (and the identical blocking variant)
for an already-resolved date list (`Timeframe::Now` resolves via the local
clock, `Timeframe::Date` to a single date, `Timeframe::DateRange` to the
`HashSet` iteration order): fetch each date sequentially — the first failure
aborts the whole call — concatenate the per-date news, then sort by publish
timestamp with `slice::sort_by`, which is a stable sort, modelled by the
stable `List.mergeSort`. -/
def getAllArticles (resp : TDate → Response) (regions : List Region) (ressort : Ressort)
    (dates : List TDate) : Except Error (List Content) :=
  match collectNews resp regions ressort dates [] with
  | .error e => .error e
  | .ok content => .ok (content.mergeSort dateLE)

/-- C4: for every response with a non-200 status, `fetch` fails with
`InvalidResponse` carrying that status, whatever the body is — the body is
never read or deserialized, so the result does not depend on it. -/
theorem claim_C4 (regions : List Region) (ressort : Ressort) (date : TDate)
    (status : Nat) (body : Except String Json) (h : status ≠ 200) :
    fetch (fun _ => ⟨status, body⟩) regions ressort date =
      .error (.invalidResponse status) := by
  simp [fetch, prepareUrl, h]

/-- C4 witness: a 404 response whose body would not even read produces
`InvalidResponse(404)`. -/
theorem claim_C4_witness :
    (404 ≠ 200) ∧
    fetch (fun _ => ⟨404, .error "unread"⟩) [] .none ⟨15, .january, 2025⟩ =
      .error (.invalidResponse 404) :=
  ⟨by decide, claim_C4 [] .none ⟨15, .january, 2025⟩ 404 (.error "unread") (by decide)⟩

/-- If every date before a failing date fetches successfully, the loop stops
at the failing date with exactly its error, discarding the accumulator. -/
theorem collectNews_err (resp : TDate → Response) (regions : List Region)
    (ressort : Ressort) (post : List TDate) (d : TDate) (err : Error)
    (hd : fetch resp regions ressort d = .error err) :
    ∀ (pre : List TDate) (acc : List Content),
      (∀ x ∈ pre, ∃ a, fetch resp regions ressort x = .ok a) →
      collectNews resp regions ressort (pre ++ d :: post) acc = .error err := by
  intro pre
  induction pre with
  | nil =>
    intro acc _
    simp [collectNews, hd]
  | cons x xs ih =>
    intro acc hpre
    obtain ⟨a, ha⟩ := hpre x (by simp)
    simp only [List.cons_append, collectNews, ha]
    exact ih _ fun y hy => hpre y (by simp [hy])

/-- C5: if every date before `d` in the resolved list fetches successfully
and `d`'s fetch fails, `get_all_articles` returns exactly `d`'s error; the
content accumulated from the earlier dates is discarded and no partial
collection is observable. -/
theorem claim_C5 (resp : TDate → Response) (regions : List Region) (ressort : Ressort)
    (pre post : List TDate) (d : TDate) (err : Error)
    (hpre : ∀ x ∈ pre, ∃ a, fetch resp regions ressort x = .ok a)
    (hd : fetch resp regions ressort d = .error err) :
    getAllArticles resp regions ressort (pre ++ d :: post) = .error err := by
  simp [getAllArticles, collectNews_err resp regions ressort post d err hd pre [] hpre]

/-- C5 witness: three dates whose middle fetch returns 404 — the aggregate
call fails with `InvalidResponse(404)` and no content list. -/
theorem claim_C5_witness :
    (∀ x ∈ [(⟨1, .january, 2024⟩ : TDate)],
      ∃ a, fetch
        (fun t => if t = ⟨2, .january, 2024⟩ then ⟨404, .ok (.obj [])⟩
          else ⟨200, .ok (.obj [("news", .arr [])])⟩) [] .none x = .ok a) ∧
    fetch
      (fun t => if t = ⟨2, .january, 2024⟩ then ⟨404, .ok (.obj [])⟩
        else ⟨200, .ok (.obj [("news", .arr [])])⟩) [] .none ⟨2, .january, 2024⟩ =
      .error (.invalidResponse 404) ∧
    getAllArticles
      (fun t => if t = ⟨2, .january, 2024⟩ then ⟨404, .ok (.obj [])⟩
        else ⟨200, .ok (.obj [("news", .arr [])])⟩) [] .none
      [⟨1, .january, 2024⟩, ⟨2, .january, 2024⟩, ⟨3, .january, 2024⟩] =
      .error (.invalidResponse 404) := by
  refine ⟨fun x hx => ?_, rfl, ?_⟩
  · simp only [List.mem_singleton] at hx
    subst hx
    exact ⟨⟨[]⟩, rfl⟩
  · exact claim_C5 _ [] .none [⟨1, .january, 2024⟩] [⟨3, .january, 2024⟩]
      ⟨2, .january, 2024⟩ (.invalidResponse 404)
      (fun x hx => by
        simp only [List.mem_singleton] at hx
        subst hx
        exact ⟨⟨[]⟩, rfl⟩) rfl

/-- If every fetch succeeds, the loop returns the accumulator followed by the
concatenated per-date news, in arrival order. -/
theorem collectNews_ok (resp : TDate → Response) (regions : List Region)
    (ressort : Ressort) (arts : TDate → Articles) :
    ∀ (dates : List TDate) (acc : List Content),
      (∀ d ∈ dates, fetch resp regions ressort d = .ok (arts d)) →
      collectNews resp regions ressort dates acc =
        .ok (acc ++ dates.flatMap fun d => (arts d).news) := by
  intro dates
  induction dates with
  | nil =>
    intro acc _
    simp [collectNews]
  | cons d ds ih =>
    intro acc hok
    have hd := hok d (by simp)
    simp only [collectNews, hd]
    rw [ih _ fun y hy => hok y (by simp [hy])]
    simp [List.append_assoc]

/-- Any two elements of one timestamp class are `dateLE`-related. -/
theorem pairwise_of_all_eq {l : List Content} {k : Int}
    (hq : ∀ x ∈ l, contentDate x = k) : l.Pairwise (fun a b => dateLE a b = true) := by
  induction l with
  | nil => exact List.Pairwise.nil
  | cons c cs ih =>
    refine List.pairwise_cons.mpr ⟨fun b hb => ?_, ih fun x hx => hq x (by simp [hx])⟩
    have h1 := hq c (by simp)
    have h2 := hq b (by simp [hb])
    simp [dateLE, h1, h2]

/-- C8: when every date fetches successfully, `get_all_articles` returns a
permutation of the concatenated per-date news entries, sorted ascending by
publish timestamp, and stably so: each class of equal timestamps appears in
exactly its arrival order (so the output is a deterministic function of the
input). -/
theorem claim_C8 (resp : TDate → Response) (regions : List Region) (ressort : Ressort)
    (dates : List TDate) (arts : TDate → Articles)
    (hok : ∀ d ∈ dates, fetch resp regions ressort d = .ok (arts d)) :
    ∃ l : List Content,
      getAllArticles resp regions ressort dates = .ok l ∧
      l.Perm (dates.flatMap fun d => (arts d).news) ∧
      l.Pairwise (fun a b => contentDate a ≤ contentDate b) ∧
      (∀ k : Int, l.filter (fun c => contentDate c = k) =
        (dates.flatMap fun d => (arts d).news).filter fun c => contentDate c = k) := by
  have htrans : ∀ a b c : Content, dateLE a b → dateLE b c → dateLE a c := by
    intro a b c
    simp only [dateLE, decide_eq_true_eq]
    omega
  have htotal : ∀ a b : Content, dateLE a b || dateLE b a := by
    intro a b
    simp only [dateLE]
    by_cases h : contentDate a ≤ contentDate b <;> simp [h] <;> omega
  set all := dates.flatMap fun d => (arts d).news with hall
  refine ⟨all.mergeSort dateLE, ?_, List.mergeSort_perm all dateLE, ?_, ?_⟩
  · simp [getAllArticles, collectNews_ok resp regions ressort arts dates [] hok]
  · have := List.sorted_mergeSort htrans htotal all
    exact this.imp fun h => by simpa [dateLE] using h
  · intro k
    have hfilterp : ∀ x ∈ all.filter (fun c => contentDate c = k), contentDate x = k := by
      intro x hx
      simpa using (List.mem_filter.mp hx).2
    have hpw := pairwise_of_all_eq hfilterp
    have hsub : List.Sublist (all.filter fun c => contentDate c = k)
        (all.mergeSort dateLE) :=
      List.sublist_mergeSort htrans htotal hpw (List.filter_sublist all)
    have hsub2 : List.Sublist (all.filter fun c => contentDate c = k)
        ((all.mergeSort dateLE).filter fun c => contentDate c = k) := by
      have := hsub.filter fun c => decide (contentDate c = k)
      rwa [List.filter_eq_self.mpr fun a ha => by simpa using hfilterp a ha] at this
    have hperm : ((all.mergeSort dateLE).filter fun c => contentDate c = k).Perm
        (all.filter fun c => contentDate c = k) :=
      (List.mergeSort_perm all dateLE).filter _
    exact (hsub2.eq_of_length hperm.length_eq.symm).symm

/-- C8 witness: a single successfully fetched date (empty news list)
instantiates the aggregation claim. -/
theorem claim_C8_witness :
    (∀ d ∈ [(⟨1, .january, 2024⟩ : TDate)],
      fetch (fun _ => ⟨200, .ok (.obj [("news", .arr [])])⟩) [] .none d =
        .ok ((fun _ => (⟨[]⟩ : Articles)) d)) ∧
    (∃ l : List Content,
      getAllArticles (fun _ => ⟨200, .ok (.obj [("news", .arr [])])⟩) [] .none
        [⟨1, .january, 2024⟩] = .ok l ∧
      l.Perm ([(⟨1, .january, 2024⟩ : TDate)].flatMap fun d =>
        ((fun _ => (⟨[]⟩ : Articles)) d).news) ∧
      l.Pairwise (fun a b => contentDate a ≤ contentDate b) ∧
      (∀ k : Int, l.filter (fun c => contentDate c = k) =
        ([(⟨1, .january, 2024⟩ : TDate)].flatMap fun d =>
          ((fun _ => (⟨[]⟩ : Articles)) d).news).filter fun c => contentDate c = k)) := by
  constructor
  · intro d hd
    simp only [List.mem_singleton] at hd
    subst hd
    rfl
  · exact claim_C8 _ [] .none [⟨1, .january, 2024⟩] (fun _ => ⟨[]⟩)
      (fun d hd => by
        simp only [List.mem_singleton] at hd
        subst hd
        rfl)

end Tagesschau
